import Mathlib

/-!
Verification of automationbroker/helm2bundle (helm2bundle.go).

The program opens a gzip-compressed tar archive of a helm chart, scans its
entries for `*/Chart.yaml` and `*/values.yaml` (Go `path.Match` patterns),
parses the chart descriptor, and renders two output files (`apb.yml` via
yaml marshalling of the `APB` structure built by `NewAPB`, and `Dockerfile`
via a fixed text template).

Strings are modelled as Lean `String` (Go strings at rune granularity; the
byte/rune distinction is irrelevant for every property proved here because
all compared literals are ASCII and `'/'` never occurs inside a multi-byte
UTF-8 encoding).  Fallible operations return `Except`.  External library
behaviour (Go `path.Match`, `gopkg.in/yaml.v2` marshalling, `text/template`
execution) is embedded from the libraries' documented algorithms, since the
repository's code calls them with fixed inputs.
-/

namespace Helm2Bundle

/-! ## Model of Go `path.Match` (path/match.go)

`path.Match(pattern, name)` returns `(matched, err)` where the only
possible error is `ErrBadPattern`.  We embed the algorithm over `List Char`:
`Except Unit Bool` stands for the `(bool, error)` pair, and the chunk
matcher returns `Except Unit (Option (List Char))` standing for Go's
`(rest string, ok bool, err error)` triple (`.ok (some t)` = matched with
rest `t`, `.ok none` = chunk failed without error, `.error ()` =
`ErrBadPattern`). -/

/-- Go `getEsc`: gets a possibly-escaped character from a character-class
chunk; fails with `ErrBadPattern` on an empty chunk, a leading `-` or `]`,
a trailing backslash, or when nothing follows the extracted character (a
class must still be closed by `]`). -/
def getEsc : List Char → Except Unit (Char × List Char)
  | [] => .error ()
  | c :: rest =>
    if c = '-' ∨ c = ']' then .error ()
    else if c = '\\' then
      match rest with
      | [] => .error ()
      | r :: rest' => if rest' = [] then .error () else .ok (r, rest')
    else if rest = [] then .error () else .ok (c, rest)

theorem getEsc_length {l : List Char} {c : Char} {rest : List Char}
    (h : getEsc l = .ok (c, rest)) : rest.length < l.length := by
  match l with
  | [] => simp [getEsc] at h
  | a :: l' =>
    by_cases h1 : a = '-' ∨ a = ']'
    · simp [getEsc, h1] at h
    · by_cases h2 : a = '\\'
      · subst h2
        match l' with
        | [] => simp [getEsc, h1] at h
        | r :: rest' =>
          by_cases h3 : rest' = []
          · simp [getEsc, h1, h3] at h
          · simp [getEsc, h1, h3] at h
            obtain ⟨rfl, rfl⟩ := h
            simp only [List.length_cons]
            omega
      · by_cases h3 : l' = []
        · simp [getEsc, h1, h2, h3] at h
        · simp [getEsc, h1, h2, h3] at h
          obtain ⟨rfl, rfl⟩ := h
          simp only [List.length_cons]
          omega

/-- The `lo '-' hi` step of a character range in Go `matchChunk`: if the
chunk continues with `-`, read the (possibly escaped) high end of the
range, otherwise the range is the single character `lo`. -/
def getHi (lo : Char) (c₁ : List Char) : Except Unit (Char × List Char) :=
  if c₁.head? = some '-' then getEsc c₁.tail else .ok (lo, c₁)

theorem getHi_length {lo : Char} {c₁ : List Char} {hi : Char} {c₃ : List Char}
    (h : getHi lo c₁ = .ok (hi, c₃)) : c₃.length ≤ c₁.length := by
  unfold getHi at h
  split at h
  · have h1 := getEsc_length h
    have h2 : c₁.tail.length ≤ c₁.length := by cases c₁ <;> simp
    omega
  · simp only [Except.ok.injEq, Prod.mk.injEq] at h
    obtain ⟨rfl, rfl⟩ := h
    exact le_refl _

/-- The character-class loop of Go `matchChunk` (`case '['`): parses the
ranges of a class, recording in `mtch` whether rune `r` fell in any range;
`first` is true while no range has been parsed yet (`nrange == 0`), so a
leading `]` is not yet a class terminator. -/
def matchClass (r : Char) (first mtch : Bool) (chunk : List Char) :
    Except Unit (Bool × List Char) :=
  if chunk.head? = some ']' ∧ first = false then
    .ok (mtch, chunk.tail)
  else
    match hg : getEsc chunk with
    | .error _ => .error ()
    | .ok (lo, c₁) =>
      match hh : getHi lo c₁ with
      | .error _ => .error ()
      | .ok (hi, c₃) =>
        matchClass r false (mtch || (decide (lo ≤ r) && decide (r ≤ hi))) c₃
termination_by chunk.length
decreasing_by
  have h1 := getEsc_length hg
  have h2 := getHi_length hh
  omega

theorem matchClass_length (r : Char) (first mtch : Bool) (chunk : List Char)
    (b : Bool) (rest : List Char)
    (h : matchClass r first mtch chunk = .ok (b, rest)) :
    rest.length ≤ chunk.length := by
  rw [matchClass] at h
  split at h
  · simp only [Except.ok.injEq, Prod.mk.injEq] at h
    obtain ⟨rfl, rfl⟩ := h
    cases chunk <;> simp
  · split at h
    · simp at h
    · rename_i lo c₁ hg
      split at h
      · simp at h
      · rename_i hi c₃ hh
        have h1 := getEsc_length hg
        have h2 := getHi_length hh
        have h3 := matchClass_length r false
          (mtch || (decide (lo ≤ r) && decide (r ≤ hi))) c₃ b rest h
        omega
termination_by chunk.length
decreasing_by omega

/-- The `possibly negated` step at the start of a character class in Go
`matchChunk`: strip a leading `^` and report whether it was present. -/
def stripNeg (ck : List Char) : Bool × List Char :=
  match ck with
  | '^' :: ck₁ => (true, ck₁)
  | _ => (false, ck)

theorem stripNeg_length (ck : List Char) : (stripNeg ck).2.length ≤ ck.length := by
  unfold stripNeg
  split
  · simp
  · simp

/-- The rune decoded at the start of the `case '['` branch of Go
`matchChunk` (the zero rune when the match has already failed). -/
def classRune (failed₁ : Bool) (s : List Char) : Char :=
  if failed₁ then Char.ofNat 0 else s.headD (Char.ofNat 0)

/-- Advancing the input `s` by one rune (`s = s[n:]`), which Go
`matchChunk` does only while the match has not failed. -/
def classRest (failed₁ : Bool) (s : List Char) : List Char :=
  if failed₁ then s else s.tail

/-- Whether the character-class parse (`matchClass` after stripping the
optional `^`) reports `ErrBadPattern`. -/
def classStepErr (r : Char) (ck : List Char) : Bool :=
  match matchClass r true false (stripNeg ck).2 with
  | .error _ => true
  | .ok _ => false

/-- The successful result of the character-class parse, bundled with the
chunk-length bound needed for termination of `matchChunkAux`; the value on
the error case is never used. -/
def classStepOk (r : Char) (ck : List Char) :
    Bool × {rest : List Char // rest.length ≤ ck.length} :=
  match hmc : matchClass r true false (stripNeg ck).2 with
  | .error _ => (false, ⟨[], by simp⟩)
  | .ok (mtch, rest) =>
    (mtch, ⟨rest, le_trans (matchClass_length _ _ _ _ _ _ hmc) (stripNeg_length ck)⟩)

/-- Go `matchChunk`, processing loop over the chunk.  `failed` records that
the match has already failed; the loop keeps processing the chunk to check
pattern well-formedness, but no longer consumes `s`.  Result encoding:
`.ok (some t)` = `(t, true, nil)`, `.ok none` = `("", false, nil)`,
`.error ()` = `("", false, ErrBadPattern)`. -/
def matchChunkAux (chunk s : List Char) (failed : Bool) :
    Except Unit (Option (List Char)) :=
  match chunk with
  | [] => if failed then .ok none else .ok (some s)
  | c0 :: ck0 =>
    let failed₁ := failed || s.isEmpty
    if c0 = '[' then
      -- character class: decode one rune of s (when not failed), parse the
      -- possibly negated ranges, and fail when match == negated
      if classStepErr (classRune failed₁ s) ck0 then .error ()
      else
        matchChunkAux (classStepOk (classRune failed₁ s) ck0).2.val (classRest failed₁ s)
          (if (classStepOk (classRune failed₁ s) ck0).1 == (stripNeg ck0).1 then true
           else failed₁)
    else if c0 = '?' then
      -- matches any single non-/ character
      matchChunkAux ck0 (classRest failed₁ s)
        (if failed₁ then failed₁ else decide (s.headD (Char.ofNat 0) = '/'))
    else if c0 = '\\' then
      -- escaped character: must exist, then compare literally
      match ck0 with
      | [] => .error ()
      | d :: ck' =>
        matchChunkAux ck' (classRest failed₁ s)
          (if failed₁ then failed₁ else decide (d ≠ s.headD (Char.ofNat 0)))
    else
      -- literal character comparison
      matchChunkAux ck0 (classRest failed₁ s)
        (if failed₁ then failed₁ else decide (c0 ≠ s.headD (Char.ofNat 0)))
termination_by chunk.length
decreasing_by
  · exact lt_of_le_of_lt (classStepOk _ _).2.property (by simp)
  · simp only [List.length_cons]; omega
  · simp only [List.length_cons]; omega
  · simp only [List.length_cons]; omega

/-- Go `matchChunk(chunk, s)`: matches the beginning of `s` against the
star-free chunk, returning the rest of `s` on success. -/
def matchChunk (chunk s : List Char) : Except Unit (Option (List Char)) :=
  matchChunkAux chunk s false

/-- The leading-star loop of Go `scanChunk`: strip the leading `*`s of the
pattern and report whether there was at least one. -/
def stripStars : List Char → Bool × List Char
  | '*' :: rest => (true, (stripStars rest).2)
  | p => (false, p)

theorem stripStars_not_star (c : Char) (rest : List Char) (hc : c ≠ '*') :
    stripStars (c :: rest) = (false, c :: rest) := by
  unfold stripStars
  split
  · rename_i heq
    injection heq with h1 _
    exact absurd h1 hc
  · rfl

theorem stripStars_length (p : List Char) : (stripStars p).2.length ≤ p.length := by
  induction p with
  | nil => simp [stripStars]
  | cons c rest ih =>
    by_cases hc : c = '*'
    · subst hc
      simp only [stripStars, List.length_cons]
      omega
    · rw [stripStars_not_star c rest hc]

/-- The `Scan` loop of Go `scanChunk`: collect pattern characters into the
chunk until an unbracketed `*`, tracking `inrange` across `[`/`]` and
skipping the character after a non-final `\`. -/
def scanChunkAux (inrange : Bool) : List Char → List Char × List Char
  | [] => ([], [])
  | c :: rest =>
    if c = '\\' then
      match rest with
      | [] => ([c], [])
      | d :: rest' =>
        let p := scanChunkAux inrange rest'
        (c :: d :: p.1, p.2)
    else if c = '[' then
      let p := scanChunkAux true rest
      (c :: p.1, p.2)
    else if c = ']' then
      let p := scanChunkAux false rest
      (c :: p.1, p.2)
    else if c = '*' then
      if inrange then
        let p := scanChunkAux inrange rest
        (c :: p.1, p.2)
      else ([], c :: rest)
    else
      let p := scanChunkAux inrange rest
      (c :: p.1, p.2)

theorem scanChunkAux_length (inrange : Bool) (p : List Char) :
    (scanChunkAux inrange p).2.length ≤ p.length := by
  match p with
  | [] => simp [scanChunkAux]
  | c :: rest =>
    by_cases h1 : c = '\\'
    · subst h1
      match rest with
      | [] => simp [scanChunkAux]
      | d :: rest' =>
        have ih := scanChunkAux_length inrange rest'
        have e : scanChunkAux inrange ('\\' :: d :: rest') =
            ('\\' :: d :: (scanChunkAux inrange rest').1, (scanChunkAux inrange rest').2) := by
          rw [scanChunkAux.eq_def]; rfl
        rw [e]
        simp only [List.length_cons]
        omega
    · by_cases h2 : c = '['
      · subst h2
        have ih := scanChunkAux_length true rest
        have e : scanChunkAux inrange ('[' :: rest) =
            ('[' :: (scanChunkAux true rest).1, (scanChunkAux true rest).2) := by
          rw [scanChunkAux.eq_def]; rfl
        rw [e]
        simp only [List.length_cons]
        omega
      · by_cases h3 : c = ']'
        · subst h3
          have ih := scanChunkAux_length false rest
          have e : scanChunkAux inrange (']' :: rest) =
              (']' :: (scanChunkAux false rest).1, (scanChunkAux false rest).2) := by
            rw [scanChunkAux.eq_def]; rfl
          rw [e]
          simp only [List.length_cons]
          omega
        · by_cases h4 : c = '*'
          · subst h4
            match inrange with
            | true =>
              have ih := scanChunkAux_length true rest
              have e : scanChunkAux true ('*' :: rest) =
                  ('*' :: (scanChunkAux true rest).1, (scanChunkAux true rest).2) := by
                rw [scanChunkAux.eq_def]; rfl
              rw [e]
              simp only [List.length_cons]
              omega
            | false =>
              have e : scanChunkAux false ('*' :: rest) = ([], '*' :: rest) := by
                rw [scanChunkAux.eq_def]; rfl
              rw [e]
          · have ih := scanChunkAux_length inrange rest
            have e : scanChunkAux inrange (c :: rest) =
                (c :: (scanChunkAux inrange rest).1, (scanChunkAux inrange rest).2) := by
              rw [scanChunkAux.eq_def]
              simp [h1, h2, h3, h4]
            rw [e]
            simp only [List.length_cons]
            omega
termination_by p.length
decreasing_by all_goals (simp only [List.length_cons]; omega)

/-- Go `scanChunk`: split the pattern into a leading-star flag, the next
star-free chunk, and the rest of the pattern. -/
def scanChunk (pattern : List Char) : Bool × List Char × List Char :=
  ((stripStars pattern).1,
   (scanChunkAux false (stripStars pattern).2).1,
   (scanChunkAux false (stripStars pattern).2).2)

theorem scanChunkAux_strict (c : Char) (rest : List Char) (h : c ≠ '*') :
    (scanChunkAux false (c :: rest)).2.length ≤ rest.length := by
  by_cases h1 : c = '\\'
  · subst h1
    match rest with
    | [] => simp [scanChunkAux]
    | d :: rest' =>
      have hl := scanChunkAux_length false rest'
      have e : scanChunkAux false ('\\' :: d :: rest') =
          ('\\' :: d :: (scanChunkAux false rest').1, (scanChunkAux false rest').2) := by
        rw [scanChunkAux.eq_def]; rfl
      rw [e]
      simp only [List.length_cons]
      omega
  · by_cases h2 : c = '['
    · subst h2
      have hl := scanChunkAux_length true rest
      have e : scanChunkAux false ('[' :: rest) =
          ('[' :: (scanChunkAux true rest).1, (scanChunkAux true rest).2) := by
        rw [scanChunkAux.eq_def]; rfl
      rw [e]
      exact hl
    · by_cases h3 : c = ']'
      · subst h3
        have hl := scanChunkAux_length false rest
        have e : scanChunkAux false (']' :: rest) =
            (']' :: (scanChunkAux false rest).1, (scanChunkAux false rest).2) := by
          rw [scanChunkAux.eq_def]; rfl
        rw [e]
        exact hl
      · have hl := scanChunkAux_length false rest
        have e : scanChunkAux false (c :: rest) =
            (c :: (scanChunkAux false rest).1, (scanChunkAux false rest).2) := by
          rw [scanChunkAux.eq_def]
          simp [h1, h2, h3, h]
        rw [e]
        exact hl

theorem scanChunk_length {p : List Char} (h : p ≠ []) :
    (scanChunk p).2.2.length < p.length := by
  match p with
  | c :: rest =>
    by_cases hc : c = '*'
    · subst hc
      have h1 : (stripStars ('*' :: rest)).2 = (stripStars rest).2 := by
        simp [stripStars]
      have h2 := stripStars_length rest
      have h3 := scanChunkAux_length false (stripStars rest).2
      simp only [scanChunk, h1, List.length_cons]
      omega
    · have h1 := stripStars_not_star c rest hc
      have h2 := scanChunkAux_strict c rest hc
      simp only [scanChunk, h1, List.length_cons]
      omega

/-- The inner `for i` backtracking loop of Go `Match` when the chunk is
preceded by a star: try to match the chunk at each later position of
`name`, never skipping past a `/`.  `.ok (some t)` models `continue
Pattern` with the remaining name `t`; `.ok none` models falling out of the
loop. -/
def starLoop (chunk rest : List Char) : List Char → Except Unit (Option (List Char))
  | [] => .ok none
  | c :: nm =>
    if c = '/' then .ok none
    else
      match matchChunk chunk nm with
      | .error _ => .error ()
      | .ok (some t) =>
        if rest.isEmpty && !t.isEmpty then starLoop chunk rest nm else .ok (some t)
      | .ok none => starLoop chunk rest nm

/-- The final loop of Go `Match`: before returning `false` with no error,
check that the remainder of the pattern is syntactically valid by running
each remaining chunk against the empty string. -/
def checkRemainderValid : List Char → Except Unit Bool
  | [] => .ok false
  | pc :: pr =>
    match matchChunk (scanChunk (pc :: pr)).2.1 [] with
    | .error _ => .error ()
    | .ok _ => checkRemainderValid (scanChunk (pc :: pr)).2.2
termination_by p => p.length
decreasing_by exact scanChunk_length (by simp)

/-- The `Pattern` loop of Go `Match(pattern, name)`. -/
def matchLoop : List Char → List Char → Except Unit Bool
  | [], name => .ok name.isEmpty
  | pc :: pr, name =>
    if (scanChunk (pc :: pr)).1 && (scanChunk (pc :: pr)).2.1.isEmpty then
      -- trailing * matches the rest of the name unless it has a /
      .ok (!(name.contains '/'))
    else
      match matchChunk (scanChunk (pc :: pr)).2.1 name with
      | .error _ => .error ()
      | .ok (some t) =>
        if t.isEmpty || !(scanChunk (pc :: pr)).2.2.isEmpty then
          matchLoop (scanChunk (pc :: pr)).2.2 t
        else
          match (if (scanChunk (pc :: pr)).1 then
                   starLoop (scanChunk (pc :: pr)).2.1 (scanChunk (pc :: pr)).2.2 name
                 else .ok none) with
          | .error _ => .error ()
          | .ok (some t') => matchLoop (scanChunk (pc :: pr)).2.2 t'
          | .ok none => checkRemainderValid (scanChunk (pc :: pr)).2.2
      | .ok none =>
        match (if (scanChunk (pc :: pr)).1 then
                 starLoop (scanChunk (pc :: pr)).2.1 (scanChunk (pc :: pr)).2.2 name
               else .ok none) with
        | .error _ => .error ()
        | .ok (some t') => matchLoop (scanChunk (pc :: pr)).2.2 t'
        | .ok none => checkRemainderValid (scanChunk (pc :: pr)).2.2
termination_by p _ => p.length
decreasing_by
  · exact scanChunk_length (by simp)
  · exact scanChunk_length (by simp)
  · exact scanChunk_length (by simp)

/-- Go `path.Match(pattern, name)`: `.ok b` is `(b, nil)`, `.error ()` is
`(false, ErrBadPattern)`. -/
def pathMatch (pattern name : List Char) : Except Unit Bool := matchLoop pattern name

/-- The first fixed pattern of `getTarValues` (helm2bundle.go line 241). -/
def chartPattern : List Char := "*/Chart.yaml".toList

/-- The second fixed pattern of `getTarValues` (helm2bundle.go line 245). -/
def valuesPattern : List Char := "*/values.yaml".toList

/-! ## Behaviour of `pathMatch` on the two fixed patterns

Both patterns have the shape `*` followed by a literal chunk (no `*`, `?`,
`[`, `]` or `\`), so we characterise `matchLoop` on every pattern of that
shape and instantiate. -/

/-- A chunk consisting only of literal characters (no glob metacharacters). -/
def litChunk (l : List Char) : Bool :=
  l.all (fun c => (c != '*') && (c != '?') && (c != '[') && (c != ']') && (c != '\\'))

theorem litChunk_cons {c : Char} {ck : List Char} (h : litChunk (c :: ck) = true) :
    c ≠ '*' ∧ c ≠ '?' ∧ c ≠ '[' ∧ c ≠ ']' ∧ c ≠ '\\' ∧ litChunk ck = true := by
  simp only [litChunk, List.all_cons, Bool.and_eq_true, bne_iff_ne, ne_eq] at h
  exact ⟨h.1.1.1.1.1, h.1.1.1.1.2, h.1.1.1.2, h.1.1.2, h.1.2, h.2⟩

set_option maxHeartbeats 1000000 in
/-- Unfolding of `matchChunkAux` at a literal head character. -/
theorem matchChunkAux_cons_lit {c : Char} (ck s : List Char) (failed : Bool)
    (h2 : c ≠ '?') (h3 : c ≠ '[') (h5 : c ≠ '\\') :
    matchChunkAux (c :: ck) s failed =
      matchChunkAux ck (classRest (failed || s.isEmpty) s)
        (if (failed || s.isEmpty) then (failed || s.isEmpty)
         else decide (c ≠ s.headD (Char.ofNat 0))) := by
  rw [matchChunkAux.eq_def]
  simp [h2, h3, h5]

/-- A literal chunk whose match has already failed never errors: the rest
of the chunk is only scanned for well-formedness. -/
theorem matchChunkAux_lit_failed {lit : List Char} (hl : litChunk lit = true)
    (s : List Char) : matchChunkAux lit s true = .ok none := by
  induction lit generalizing s with
  | nil =>
    rw [matchChunkAux.eq_def]
    rfl
  | cons c ck ih =>
    obtain ⟨_, h2, h3, _, h5, hck⟩ := litChunk_cons hl
    rw [matchChunkAux_cons_lit ck s true h2 h3 h5]
    exact ih hck _

/-- Go `matchChunk` on a literal chunk is prefix matching. -/
theorem matchChunkAux_lit {lit : List Char} (hl : litChunk lit = true)
    (s : List Char) :
    matchChunkAux lit s false =
      .ok (if lit.isPrefixOf s then some (s.drop lit.length) else none) := by
  induction lit generalizing s with
  | nil =>
    rw [matchChunkAux.eq_def]
    simp
  | cons c ck ih =>
    obtain ⟨_, h2, h3, _, h5, hck⟩ := litChunk_cons hl
    rw [matchChunkAux_cons_lit ck s false h2 h3 h5]
    cases s with
    | nil =>
      exact (matchChunkAux_lit_failed hck []).trans (by simp [List.isPrefixOf])
    | cons x xs =>
      by_cases hcx : c = x
      · show matchChunkAux ck xs (decide (c ≠ x)) = _
        rw [show (decide (c ≠ x)) = false by simp [hcx]]
        rw [ih hck xs]
        simp [List.isPrefixOf, hcx]
      · show matchChunkAux ck xs (decide (c ≠ x)) = _
        rw [show (decide (c ≠ x)) = true by simpa using hcx]
        rw [matchChunkAux_lit_failed hck xs]
        simp [List.isPrefixOf, hcx]

theorem stripStars_lit {lit : List Char} (hl : litChunk lit = true) :
    stripStars lit = (false, lit) := by
  cases lit with
  | nil => rfl
  | cons c ck =>
    obtain ⟨h1, _, _, _, _, _⟩ := litChunk_cons hl
    exact stripStars_not_star c ck h1

theorem scanChunkAux_lit {lit : List Char} (hl : litChunk lit = true) :
    scanChunkAux false lit = (lit, []) := by
  induction lit with
  | nil => rfl
  | cons c ck ih =>
    obtain ⟨h1, _, h3, h4, h5, hck⟩ := litChunk_cons hl
    have e : scanChunkAux false (c :: ck) =
        (c :: (scanChunkAux false ck).1, (scanChunkAux false ck).2) := by
      rw [scanChunkAux.eq_def]
      simp [h1, h3, h4, h5]
    rw [e, ih hck]

/-- `scanChunk` of a star followed by a literal chunk. -/
theorem scanChunk_star_lit {lit : List Char} (hl : litChunk lit = true) :
    scanChunk ('*' :: lit) = (true, lit, []) := by
  have h1 : stripStars ('*' :: lit) = (true, (stripStars lit).2) := by
    rw [stripStars.eq_def]
    rfl
  have h2 : (stripStars lit).2 = lit := by rw [stripStars_lit hl]
  simp only [scanChunk, h1, h2, scanChunkAux_lit hl]

/-- The backtracking loop never errors on a literal chunk, and only ever
accepts with the whole name consumed (the pattern ends after the chunk). -/
theorem starLoop_shape {lit : List Char} (hl : litChunk lit = true) (name : List Char) :
    starLoop lit [] name = .ok none ∨ starLoop lit [] name = .ok (some []) := by
  induction name with
  | nil => left; rfl
  | cons c nm ih =>
    simp only [starLoop]
    by_cases hc : c = '/'
    · rw [if_pos hc]
      left
      rfl
    · rw [if_neg hc]
      show (match matchChunk lit nm with
        | .error _ => Except.error ()
        | .ok (some t) =>
          if ([] : List Char).isEmpty && !t.isEmpty then starLoop lit [] nm
          else .ok (some t)
        | .ok none => starLoop lit [] nm) = _ ∨ _
      rw [matchChunk, matchChunkAux_lit hl nm]
      cases hp : lit.isPrefixOf nm with
      | false => exact ih
      | true =>
        cases ht : nm.drop lit.length with
        | nil => simp
        | cons t0 ts => simpa using ih

/-- The backtracking loop accepts exactly when the name is a nonempty
slash-free prefix followed by the literal chunk. -/
theorem starLoop_some_iff {lit : List Char} (hl : litChunk lit = true) (name : List Char) :
    starLoop lit [] name = .ok (some []) ↔
      ∃ pre, pre ≠ [] ∧ '/' ∉ pre ∧ name = pre ++ lit := by
  induction name with
  | nil =>
    constructor
    · intro h
      rw [show starLoop lit [] [] = Except.ok none from rfl] at h
      exact Option.noConfusion (Except.ok.inj h)
    · rintro ⟨pre, hne, _, heq⟩
      obtain ⟨h1, -⟩ := List.append_eq_nil.mp heq.symm
      exact absurd h1 hne
  | cons c nm ih =>
    by_cases hc : c = '/'
    · subst hc
      constructor
      · intro h
        rw [show starLoop lit [] ('/' :: nm) = Except.ok none from rfl] at h
        exact Option.noConfusion (Except.ok.inj h)
      · rintro ⟨pre, hne, hmem, heq⟩
        match pre, heq with
        | p :: ps, heq =>
          injection heq with h1 _
          subst h1
          exact absurd (List.mem_cons_self _ _) hmem
    · simp only [starLoop]
      rw [if_neg hc, matchChunk, matchChunkAux_lit hl nm]
      cases hp : lit.isPrefixOf nm with
      | false =>
        -- the chunk does not match here: keep scanning
        have hnm : nm ≠ lit := by
          intro h
          subst h
          rw [show (nm.isPrefixOf nm) = true from
            List.isPrefixOf_iff_prefix.mpr (List.prefix_refl nm)] at hp
          exact Bool.true_eq_false.mp hp
        show starLoop lit [] nm = Except.ok (some []) ↔ _
        rw [ih]
        constructor
        · rintro ⟨ps, hne0, hm, heq⟩
          refine ⟨c :: ps, by simp, ?_, by simp [heq]⟩
          intro hmem'
          rcases List.mem_cons.mp hmem' with h | h
          · exact hc h.symm
          · exact hm h
        · rintro ⟨pre, hne, hmem, heq⟩
          match pre, heq with
          | p :: ps, heq =>
            injection heq with h1 h2
            refine ⟨ps, ?_, fun hm => hmem (by simp [hm]), h2⟩
            intro hps
            subst hps
            exact hnm (by simpa using h2)
      | true =>
        obtain ⟨r, hr⟩ := List.isPrefixOf_iff_prefix.mp hp
        show (if ((List.isEmpty ([] : List Char)) && !(List.isEmpty (nm.drop lit.length))) = true
            then starLoop lit [] nm else Except.ok (some (nm.drop lit.length))) =
            Except.ok (some []) ↔ _
        cases ht : nm.drop lit.length with
        | nil =>
          -- the whole rest of the name is the chunk: accept here
          have hr' : r = [] := by
            rw [← hr, List.drop_left] at ht
            exact ht
          have hnm : nm = lit := by
            rw [← hr, hr', List.append_nil]
          rw [if_neg (by simp)]
          constructor
          · intro _
            refine ⟨[c], by simp, ?_, ?_⟩
            · intro hmem'
              exact hc (List.mem_singleton.mp hmem').symm
            · rw [hnm]
              rfl
          · intro _
            rfl
        | cons t0 ts =>
          -- chunk matches but the name continues: keep scanning
          have hnm : nm ≠ lit := by
            intro h
            subst h
            rw [List.drop_length] at ht
            exact List.noConfusion ht
          rw [if_pos (by simp)]
          rw [ih]
          constructor
          · rintro ⟨ps, hne0, hm, heq⟩
            refine ⟨c :: ps, by simp, ?_, by simp [heq]⟩
            intro hmem'
            rcases List.mem_cons.mp hmem' with h | h
            · exact hc h.symm
            · exact hm h
          · rintro ⟨pre, hne, hmem, heq⟩
            match pre, heq with
            | p :: ps, heq =>
              injection heq with h1 h2
              refine ⟨ps, ?_, fun hm => hmem (by simp [hm]), h2⟩
              intro hps
              subst hps
              exact hnm (by simpa using h2)

/-- Executable specification of matching `*` followed by a literal chunk:
the name ends with the chunk and the part before it contains no `/`. -/
def segMatch (lit name : List Char) : Bool :=
  decide (lit <:+ name) && !decide ('/' ∈ name.take (name.length - lit.length))

theorem segMatch_iff (lit name : List Char) :
    segMatch lit name = true ↔ ∃ pre, '/' ∉ pre ∧ name = pre ++ lit := by
  simp only [segMatch, Bool.and_eq_true, decide_eq_true_eq, Bool.not_eq_true',
    decide_eq_false_iff_not]
  constructor
  · rintro ⟨⟨pre, hpre⟩, hmem⟩
    refine ⟨pre, ?_, hpre.symm⟩
    have hlen : name.length - lit.length = pre.length := by
      rw [← hpre]
      simp
    rw [hlen, ← hpre, List.take_left] at hmem
    exact hmem
  · rintro ⟨pre, hmem, rfl⟩
    refine ⟨⟨pre, rfl⟩, ?_⟩
    have hlen : (pre ++ lit).length - lit.length = pre.length := by simp
    rw [hlen, List.take_left]
    exact hmem

theorem matchLoop_nil (t : List Char) : matchLoop [] t = .ok t.isEmpty := by
  rw [matchLoop.eq_def]

theorem checkRemainderValid_nil : checkRemainderValid [] = .ok false := by
  rw [checkRemainderValid.eq_def]

/-- Go `Match` on a pattern of the shape `*` + literal chunk computes
`segMatch` and never reports an error. -/
theorem matchLoop_star_lit {lit : List Char} (hl : litChunk lit = true) (hne : lit ≠ [])
    (name : List Char) :
    matchLoop ('*' :: lit) name = .ok (segMatch lit name) := by
  have hsc := scanChunk_star_lit hl
  have hlitne : lit.isEmpty = false := by
    cases lit with
    | nil => exact absurd rfl hne
    | cons a l => rfl
  rw [matchLoop.eq_def]
  simp only [hsc]
  rw [if_neg (by simp [hlitne])]
  rw [matchChunk, matchChunkAux_lit hl name]
  have hfall : name ≠ lit →
      (match starLoop lit [] name with
       | Except.error _ => Except.error ()
       | Except.ok (some t') => matchLoop [] t'
       | Except.ok none => checkRemainderValid []) = .ok (segMatch lit name) := by
    intro hnl
    rcases starLoop_shape hl name with hs | hs <;> rw [hs]
    · show checkRemainderValid [] = _
      rw [checkRemainderValid_nil]
      have hseg : segMatch lit name = false := by
        cases hsg : segMatch lit name
        · rfl
        · exfalso
          obtain ⟨pre, hmem, heq⟩ := (segMatch_iff lit name).mp hsg
          rcases eq_or_ne pre [] with hpe | hpe
          · subst hpe
            simp only [List.nil_append] at heq
            exact hnl heq
          · have := (starLoop_some_iff hl name).mpr ⟨pre, hpe, hmem, heq⟩
            rw [hs] at this
            exact Option.noConfusion (Except.ok.inj this)
      rw [hseg]
    · show matchLoop [] [] = _
      rw [matchLoop_nil]
      obtain ⟨pre, hne', hmem, heq⟩ := (starLoop_some_iff hl name).mp hs
      rw [segMatch_iff lit name |>.mpr ⟨pre, hmem, heq⟩]
      rfl
  cases hp : lit.isPrefixOf name with
  | true =>
    obtain ⟨r, hr⟩ := List.isPrefixOf_iff_prefix.mp hp
    cases ht : name.drop lit.length with
    | nil =>
      -- the chunk consumes the whole name: direct accept
      have hr' : r = [] := by
        rw [← hr, List.drop_left] at ht
        exact ht
      have hname : name = lit := by
        rw [← hr, hr', List.append_nil]
      show matchLoop [] [] = _
      rw [matchLoop_nil]
      rw [segMatch_iff lit name |>.mpr ⟨[], by simp, by simp [hname]⟩]
      rfl
    | cons t0 ts =>
      -- direct match leaves input: fall through to the star loop
      have hnl : name ≠ lit := by
        intro h
        subst h
        rw [List.drop_length] at ht
        exact List.noConfusion ht
      show (match starLoop lit [] name with
        | Except.error _ => Except.error ()
        | Except.ok (some t') => matchLoop [] t'
        | Except.ok none => checkRemainderValid []) = _
      exact hfall hnl
  | false =>
    have hnl : name ≠ lit := by
      intro h
      subst h
      rw [show (name.isPrefixOf name) = true from
        List.isPrefixOf_iff_prefix.mpr (List.prefix_refl name)] at hp
      exact Bool.true_eq_false.mp hp
    show (match starLoop lit [] name with
      | Except.error _ => Except.error ()
      | Except.ok (some t') => matchLoop [] t'
      | Except.ok none => checkRemainderValid []) = _
    exact hfall hnl

/-- `path.Match("*/Chart.yaml", name)` computes `segMatch "/Chart.yaml"`
and never returns `ErrBadPattern`. -/
theorem pathMatch_chart (name : List Char) :
    pathMatch chartPattern name = .ok (segMatch "/Chart.yaml".toList name) := by
  rw [pathMatch, show chartPattern = '*' :: "/Chart.yaml".toList from rfl]
  exact matchLoop_star_lit (by decide) (by decide) name

/-- `path.Match("*/values.yaml", name)` computes `segMatch "/values.yaml"`
and never returns `ErrBadPattern`. -/
theorem pathMatch_values (name : List Char) :
    pathMatch valuesPattern name = .ok (segMatch "/values.yaml".toList name) := by
  rw [pathMatch, show valuesPattern = '*' :: "/values.yaml".toList from rfl]
  exact matchLoop_star_lit (by decide) (by decide) name

/-! ## The archive scan of `getTarValues` (helm2bundle.go lines 215-275)

The tar stream is modelled as the list of observations the loop makes:
each `tr.Next()` either yields an entry header (with the bytes a
subsequent `ReadAll` would produce, `.error ()` standing for a read
failure) or fails with a non-EOF error; the end of the list is `io.EOF`.
`parseChart`'s yaml parsing (`yaml.Unmarshal` into `Chart`) is an oracle
parameter `parse`, since the yaml library is external; its `ReadAll` and
`Unmarshal` error paths are the `.readErr`/`.parseErr` outcomes. -/

/-- Chart holds data that is parsed from a helm chart's Chart.yaml file
(field order as in helm2bundle.go lines 97-101). -/
structure Chart where
  Description : String
  Name : String
deriving DecidableEq

/-- TarValues holds data that will be used to create the Dockerfile and
apb.yml (helm2bundle.go lines 89-95). -/
structure TarValues where
  Name : String
  Description : String
  TarfileName : String
  Values : String
deriving DecidableEq

deriving instance DecidableEq for Except

/-- One observation of the tar entry stream. -/
inductive TarEvent
  | entry (name : String) (content : Except Unit String)
  | readErr
deriving DecidableEq

/-- The distinct failure outcomes of `getTarValues`. -/
inductive TarError
  | openErr           -- os.Open failed (line 218)
  | gzipErr           -- gzip.NewReader failed (line 224)
  | chartNotFound     -- io.EOF: "Chart.yaml not found in archive" (line 235)
  | incompleteArchive -- "Could not find both Chart.yaml and values.yaml" (line 274)
  | nextErr           -- tr.Next() failed with a non-EOF error (line 237)
  | matchErr          -- path.Match returned ErrBadPattern (lines 242, 246)
  | readErr           -- ioutil.ReadAll failed (lines 256, 282)
  | parseErr          -- yaml.Unmarshal failed in parseChart (line 287)
deriving DecidableEq

/-- What opening the archive yields before the entry loop. -/
inductive ArchiveInput
  | openErr
  | gzipErr
  | entries (events : List TarEvent)
deriving DecidableEq

/-- The `if chartMatch` body (lines 249-254): parse the entry's content as
the new chart; `ReadAll` and `yaml.Unmarshal` failures abort. -/
def chartStep (parse : String → Except Unit Chart) (chartMatch : Bool)
    (content : Except Unit String) (chart : Chart) : Except TarError Chart :=
  if chartMatch then
    match content with
    | .error _ => .error .readErr
    | .ok data =>
      match parse data with
      | .error _ => .error .parseErr
      | .ok c => .ok c
  else .ok chart

/-- The `if valuesMatch` body (lines 255-261): read the entry's content as
the new values text; a `ReadAll` failure aborts. -/
def valuesStep (valuesMatch : Bool) (content : Except Unit String)
    (values : String) : Except TarError String :=
  if valuesMatch then
    match content with
    | .error _ => .error .readErr
    | .ok data => .ok data
  else .ok values

/-- The body of one iteration of the `getTarValues` loop on an entry
header (lines 241-261): run both pattern matches, on a chart match parse
the entry as the new chart, on a values match read the entry as the new
values text. -/
def scanStep (parse : String → Except Unit Chart) (nm : String)
    (content : Except Unit String) (chart : Chart) (values : String) :
    Except TarError (Chart × String) :=
  match pathMatch chartPattern nm.toList with
  | .error _ => .error .matchErr
  | .ok chartMatch =>
    match pathMatch valuesPattern nm.toList with
    | .error _ => .error .matchErr
    | .ok valuesMatch =>
      match chartStep parse chartMatch content chart with
      | .error e => .error e
      | .ok chart' =>
        match valuesStep valuesMatch content values with
        | .error e => .error e
        | .ok values' => .ok (chart', values')

/-- The `for` loop of `getTarValues` (lines 232-265), carrying the mutable
`chart` and `values` variables.  A successful result is the state at
`break`, which is taken as soon as both captures are non-empty (line
262). -/
def getTarValuesLoop (parse : String → Except Unit Chart) :
    List TarEvent → Chart → String → Except TarError (Chart × String)
  | [], _, _ => .error .chartNotFound
  | .readErr :: _, _, _ => .error .nextErr
  | .entry nm content :: rest, chart, values =>
    match scanStep parse nm content chart values with
    | .error e => .error e
    | .ok (chart', values') =>
      if values'.length > 0 && chart'.Name.length > 0 then .ok (chart', values')
      else getTarValuesLoop parse rest chart' values'

/-- `getTarValues` (helm2bundle.go lines 217-275): open and decompress the
archive, scan its entries, and either return the `TarValues` or fail.  The
zero value `Chart{}` and the empty `values` string initialise the loop. -/
def getTarValues (parse : String → Except Unit Chart) (filename : String)
    (input : ArchiveInput) : Except TarError TarValues :=
  match input with
  | .openErr => .error .openErr
  | .gzipErr => .error .gzipErr
  | .entries events =>
    match getTarValuesLoop parse events ⟨"", ""⟩ "" with
    | .error e => .error e
    | .ok (chart, values) =>
      if values.length > 0 && chart.Name.length > 0 then
        .ok ⟨chart.Name, chart.Description, filename, values⟩
      else .error .incompleteArchive

/-! ## The manifest (`APB`, `NewAPB`, helm2bundle.go lines 30-87) -/

/-- A parameter of a plan (`Type'` renders Go's field `Type`, a reserved
word in Lean). -/
structure Parameter where
  Name : String
  Title : String
  Type' : String
  DisplayType : String
  Default : String
deriving DecidableEq

/-- A plan of the manifest.  Go's `Metadata map[string]interface{}` is
modelled as an association list; `NewAPB` only ever builds the empty map. -/
structure Plan where
  Name : String
  Description : String
  Free : Bool
  Metadata : List (String × String)
  Parameters : List Parameter
deriving DecidableEq

/-- APB represents an apb.yml file.  The two `map[string]string` fields are
modelled as association lists; a Go map is unordered, so the list order is
a representation artifact and the yaml encoder sorts keys (see
`marshalAPB`). -/
structure APB where
  Version : String
  Name : String
  Description : String
  Bindable : Bool
  Async : String
  Metadata : List (String × String)
  Plans : List Plan
deriving DecidableEq

/-- NewAPB returns a pointer to a new APB that has been populated with the
passed-in data (helm2bundle.go lines 57-87); `fmt.Sprintf` calls are
rendered as string concatenation. -/
def NewAPB (v : TarValues) : APB :=
  let parameter : Parameter :=
    { Name := "values"
      Title := "Values"
      Type' := "string"
      DisplayType := "textarea"
      Default := v.Values }
  let plan : Plan :=
    { Name := "default"
      Description := "Deploys helm chart " ++ v.Name
      Free := true
      Metadata := []
      Parameters := [parameter] }
  { Version := "1.0"
    Name := v.Name ++ "-apb"
    Description := v.Description
    Bindable := false
    Async := "optional"
    Metadata := [("displayName", v.Name ++ " (helm bundle)"),
                 ("console.openshift.io/iconClass", "icon-" ++ v.Name)]
    Plans := [plan] }

/-! ## The yaml serialization of the manifest (`yaml.Marshal(apb)`)

Model of `gopkg.in/yaml.v2` marshalling for the `APB` shape: struct fields
are emitted in declaration order under their `yaml:` tags; a Go map has no
iteration order, so the encoder receives its entries in an arbitrary order
`metaOrder` and sorts them by key (yaml.v2 `encode.go` sorts map keys);
scalar style details (quoting, block style) are abstracted to emitting the
raw string. -/

/-- Lexicographic order on the character lists of two keys. -/
def keyLt : List Char → List Char → Bool
  | [], [] => false
  | [], _ :: _ => true
  | _ :: _, [] => false
  | a :: as, b :: bs => if a < b then true else if b < a then false else keyLt as bs

/-- The key order used by the yaml encoder for map entries. -/
def keyLe (a b : String) : Bool := !(keyLt b.toList a.toList)

/-- Insertion into a key-sorted list of map entries. -/
def insertByKey (p : String × String) : List (String × String) → List (String × String)
  | [] => [p]
  | q :: rest => if keyLe p.1 q.1 then p :: q :: rest else q :: insertByKey p rest

/-- The yaml encoder's sorting of map entries by key. -/
def sortByKey : List (String × String) → List (String × String)
  | [] => []
  | p :: rest => insertByKey p (sortByKey rest)

/-- One `key: value` line per map entry, keys sorted. -/
def marshalMetadataLines (indent : String) (entries : List (String × String)) : String :=
  String.join ((sortByKey entries).map (fun p => indent ++ p.1 ++ ": " ++ p.2 ++ "\n"))

/-- Serialization of one `Parameter` (fields in struct order). -/
def marshalParameter (p : Parameter) : String :=
  "  - name: " ++ p.Name ++ "\n    title: " ++ p.Title ++ "\n    type: " ++ p.Type' ++
    "\n    display_type: " ++ p.DisplayType ++ "\n    default: " ++ p.Default ++ "\n"

/-- Serialization of one `Plan` (fields in struct order; the empty metadata
map is emitted as `{}`). -/
def marshalPlan (p : Plan) : String :=
  "- name: " ++ p.Name ++ "\n  description: " ++ p.Description ++ "\n  free: " ++
    (if p.Free then "true" else "false") ++ "\n  metadata: " ++
    (if p.Metadata.isEmpty then "\x7b\x7d\n" else "\n" ++ marshalMetadataLines "    " p.Metadata) ++
    "  parameters:\n" ++ String.join (p.Parameters.map marshalParameter)

/-- `yaml.Marshal` of the `APB` structure; `metaOrder` is the arbitrary
iteration order in which the Go runtime hands the `Metadata` map's entries
to the encoder (a permutation of `a.Metadata`). -/
def marshalAPB (a : APB) (metaOrder : List (String × String)) : String :=
  "version: " ++ a.Version ++ "\nname: " ++ a.Name ++ "\ndescription: " ++ a.Description ++
    "\nbindable: " ++ (if a.Bindable then "true" else "false") ++ "\nasync: " ++ a.Async ++
    "\nmetadata:\n" ++ marshalMetadataLines "  " metaOrder ++
    "plans:\n" ++ String.join (a.Plans.map marshalPlan)

/-- The contents `writeApbYaml` (helm2bundle.go lines 179-196) writes to
`apb.yml`. -/
def writeApbYamlContent (metaOrder : List (String × String)) (v : TarValues) : String :=
  marshalAPB (NewAPB v) metaOrder

/-! ## The Dockerfile rendering (`writeDockerfile`, lines 17-25, 198-213)

`text/template` parses the fixed template into literal text around the
single `.TarfileName` action and `Execute` substitutes the field verbatim;
`splitOnceAtMarker`/`List.intercalate` model exactly that parse/execute
pair for a template with at most one action. -/

/-- The fixed Dockerfile template (helm2bundle.go lines 17-25). -/
def dockerfileTemplate : String :=
  "FROM ansibleplaybookbundle/helm-bundle-base\n\nLABEL \"com.redhat.apb.spec\"=\\\n\"\"\n\nCOPY \x7b\x7b.TarfileName\x7d\x7d /opt/chart.tgz\n\nENTRYPOINT [\"entrypoint.sh\"]\n"

/-- The template's single action. -/
def tmplMarker : String := "\x7b\x7b.TarfileName\x7d\x7d"

/-- Index of the first occurrence of `m` in `l`, if any. -/
def findMarker (m : List Char) : List Char → Option Nat
  | [] => if m = [] then some 0 else none
  | c :: rest =>
    if m.isPrefixOf (c :: rest) then some 0
    else (findMarker m rest).map (· + 1)

/-- Split at the first occurrence of the marker (the template parse:
literal text, one action, literal text). -/
def splitOnceAtMarker (m l : List Char) : List (List Char) :=
  match findMarker m l with
  | none => [l]
  | some i => [l.take i, l.drop (i + m.length)]

/-- The text `writeDockerfile` writes: the template with `{{.TarfileName}}`
replaced by the archive's file name. -/
def renderDockerfile (v : TarValues) : String :=
  ⟨List.intercalate v.TarfileName.toList
    (splitOnceAtMarker tmplMarker.toList dockerfileTemplate.toList)⟩

/-- Text split into lines at every newline character (the trailing line is
the text after the last newline). -/
def splitLines : List Char → List (List Char)
  | [] => [[]]
  | c :: rest =>
    if c = '\n' then [] :: splitLines rest
    else
      match splitLines rest with
      | h :: t => (c :: h) :: t
      | [] => [[c]]

/-! ## The run (`main`'s cobra `Run` closure, helm2bundle.go lines 103-159)

The working directory is modelled by the state of the two target files;
`os.Stat` on each may also fail with a non-`IsNotExist` error.  The two
`os.Create`+write steps are modelled as always succeeding (output I/O
errors abort the run in Go but decide none of the verified claims; spec §7
explicitly leaves partial-write behaviour implementation-defined). -/

/-- What `os.Stat` of one target file can observe. -/
inductive FileProbe
  | present (content : String)
  | absent
  | statFailed
deriving DecidableEq

/-- The two files of interest in the working directory. -/
structure Dir where
  apbYmlFile : FileProbe
  dockerfileFile : FileProbe
deriving DecidableEq

/-- A directory with neither output file present. -/
def emptyDir : Dir := ⟨.absent, .absent⟩

/-- fileExists returns true if either apb.yml or Dockerfile exist in the
working directory, else false (helm2bundle.go lines 161-177); the loop
checks `apb.yml` first, then `Dockerfile`. -/
def fileExists (d : Dir) : Except Unit Bool :=
  match d.apbYmlFile with
  | .present _ => .ok true
  | .statFailed => .error ()
  | .absent =>
    match d.dockerfileFile with
    | .present _ => .ok true
    | .statFailed => .error ()
    | .absent => .ok false

/-- The failure outcomes of one run (each is an `os.Exit(1)` path). -/
inductive RunError
  | alreadyExists        -- "use --force to overwrite existing ..."
  | statError            -- fileExists returned an error
  | tarError (e : TarError)
deriving DecidableEq

/-- The write phase of the run (lines 127-147): extract the values, then
write apb.yml and then Dockerfile. -/
def runWrites (d : Dir) (parse : String → Except Unit Chart) (filename : String)
    (input : ArchiveInput) (metaOrder : List (String × String)) :
    Except RunError Unit × Dir :=
  match getTarValues parse filename input with
  | .error e => (.error (.tarError e), d)
  | .ok v =>
    (.ok (), { apbYmlFile := .present (writeApbYamlContent metaOrder v),
               dockerfileFile := .present (renderDockerfile v) })

/-- The cobra `Run` closure (lines 112-148): without `--force`, abort when
either output file already exists (or stat fails); then extract and write
both files. -/
def runMain (force : Bool) (d : Dir) (parse : String → Except Unit Chart)
    (filename : String) (input : ArchiveInput)
    (metaOrder : List (String × String)) : Except RunError Unit × Dir :=
  if force = false then
    match fileExists d with
    | .error _ => (.error .statError, d)
    | .ok true => (.error .alreadyExists, d)
    | .ok false => runWrites d parse filename input metaOrder
  else runWrites d parse filename input metaOrder

/-! ## Spec-side companion definition and loop lemmas -/

/-- Spec-side companion predicate (for the corrected EOF claim): mirrors
the traversal of `getTarValuesLoop` and is true exactly when the scan
walks off the end of the entry stream (`tr.Next()` returns `io.EOF`),
rather than completing or stopping at a hard error. -/
def specStreamEndsAtEOF (parse : String → Except Unit Chart) :
    List TarEvent → Chart → String → Bool
  | [], _, _ => true
  | .readErr :: _, _, _ => false
  | .entry nm content :: rest, chart, values =>
    match scanStep parse nm content chart values with
    | .error _ => false
    | .ok (chart', values') =>
      if values'.length > 0 && chart'.Name.length > 0 then false
      else specStreamEndsAtEOF parse rest chart' values'

/-- A successful scan always captured a non-empty chart name and non-empty
values text (the loop only breaks when both hold). -/
theorem getTarValuesLoop_ok_nonempty {parse : String → Except Unit Chart}
    {events : List TarEvent} {chart : Chart} {values : String}
    {c : Chart} {v : String}
    (h : getTarValuesLoop parse events chart values = .ok (c, v)) :
    v.length > 0 ∧ c.Name.length > 0 := by
  induction events generalizing chart values with
  | nil => simp [getTarValuesLoop] at h
  | cons ev rest ih =>
    cases ev with
    | readErr => simp [getTarValuesLoop] at h
    | entry nm content =>
      simp only [getTarValuesLoop] at h
      split at h
      · exact absurd h (by simp)
      · split at h
        · rename_i hcond
          simp only [Except.ok.injEq, Prod.mk.injEq] at h
          obtain ⟨rfl, rfl⟩ := h
          simpa using hcond
        · exact ih h

/-- The outcome of a scan step, with the two pattern matches resolved by
`pathMatch_chart`/`pathMatch_values` (they never error). -/
theorem scanStep_eq (parse : String → Except Unit Chart) (nm : String)
    (content : Except Unit String) (chart : Chart) (values : String) :
    scanStep parse nm content chart values =
      (match chartStep parse (segMatch "/Chart.yaml".toList nm.toList) content chart with
       | .error e => .error e
       | .ok chart' =>
         match valuesStep (segMatch "/values.yaml".toList nm.toList) content values with
         | .error e => .error e
         | .ok values' => .ok (chart', values')) := by
  unfold scanStep
  rw [pathMatch_chart, pathMatch_values]

theorem chartStep_error_cases {parse : String → Except Unit Chart} {chartMatch : Bool}
    {content : Except Unit String} {chart : Chart} {e : TarError}
    (h : chartStep parse chartMatch content chart = .error e) :
    e = TarError.readErr ∨ e = TarError.parseErr := by
  unfold chartStep at h
  split at h
  · split at h
    · injection h with h1
      exact Or.inl h1.symm
    · split at h
      · injection h with h1
        exact Or.inr h1.symm
      · exact absurd h (by simp)
  · exact absurd h (by simp)

theorem valuesStep_error_cases {valuesMatch : Bool} {content : Except Unit String}
    {values : String} {e : TarError}
    (h : valuesStep valuesMatch content values = .error e) : e = TarError.readErr := by
  unfold valuesStep at h
  split at h
  · split at h
    · injection h with h1
      exact h1.symm
    · exact absurd h (by simp)
  · exact absurd h (by simp)

/-- A failing scan step is a read or parse failure: the two `path.Match`
calls never error on the fixed patterns. -/
theorem scanStep_error_cases {parse : String → Except Unit Chart} {nm : String}
    {content : Except Unit String} {chart : Chart} {values : String} {e : TarError}
    (h : scanStep parse nm content chart values = .error e) :
    e = TarError.readErr ∨ e = TarError.parseErr := by
  rw [scanStep_eq] at h
  split at h
  · rename_i e₁ hcs
    injection h with h1
    subst h1
    exact chartStep_error_cases hcs
  · split at h
    · rename_i e₂ hvs
      injection h with h1
      subst h1
      exact Or.inl (valuesStep_error_cases hvs)
    · exact absurd h (by simp)

/-- Classification of the loop's failures: EOF, a `tr.Next()` error, or a
read/parse failure — never `matchErr` and never `incompleteArchive`. -/
theorem getTarValuesLoop_error_cases {parse : String → Except Unit Chart}
    {events : List TarEvent} {chart : Chart} {values : String} {e : TarError}
    (h : getTarValuesLoop parse events chart values = .error e) :
    e = TarError.chartNotFound ∨ e = TarError.nextErr ∨
      e = TarError.readErr ∨ e = TarError.parseErr := by
  induction events generalizing chart values with
  | nil =>
    simp only [getTarValuesLoop] at h
    injection h with h1
    exact Or.inl h1.symm
  | cons ev rest ih =>
    cases ev with
    | readErr =>
      simp only [getTarValuesLoop] at h
      injection h with h1
      exact Or.inr (Or.inl h1.symm)
    | entry nm content =>
      simp only [getTarValuesLoop] at h
      split at h
      · rename_i e₁ hstep
        injection h with h1
        subst h1
        rcases scanStep_error_cases hstep with h2 | h2
        · exact Or.inr (Or.inr (Or.inl h2))
        · exact Or.inr (Or.inr (Or.inr h2))
      · split at h
        · exact absurd h (by simp)
        · exact ih h

/-- The `IncompleteArchive` return (helm2bundle.go line 274) is dead code:
the loop only exits via `break` when both captures are non-empty, so the
post-loop completeness check never fails. -/
theorem getTarValues_ne_incompleteArchive (parse : String → Except Unit Chart)
    (filename : String) (input : ArchiveInput) :
    getTarValues parse filename input ≠ .error .incompleteArchive := by
  cases input with
  | openErr => simp [getTarValues]
  | gzipErr => simp [getTarValues]
  | entries events =>
    simp only [getTarValues]
    split
    · rename_i e heq
      intro hcontra
      injection hcontra with h1
      subst h1
      rcases getTarValuesLoop_error_cases heq with h2 | h2 | h2 | h2 <;>
        exact TarError.noConfusion h2
    · rename_i p heq
      split
      · simp
      · rename_i hcond
        obtain ⟨h1, h2⟩ := getTarValuesLoop_ok_nonempty heq
        exact absurd (by simpa using And.intro h1 h2) hcond

/-- When the scan walks off the end of the stream, `getTarValues`' loop
returns the `ChartNotFound` error — whether or not the chart (or the
values text) had already been captured. -/
theorem getTarValuesLoop_eof {parse : String → Except Unit Chart}
    {events : List TarEvent} {chart : Chart} {values : String}
    (h : specStreamEndsAtEOF parse events chart values = true) :
    getTarValuesLoop parse events chart values = .error .chartNotFound := by
  induction events generalizing chart values with
  | nil => simp only [getTarValuesLoop]
  | cons ev rest ih =>
    cases ev with
    | readErr => simp [specStreamEndsAtEOF] at h
    | entry nm content =>
      simp only [specStreamEndsAtEOF] at h
      simp only [getTarValuesLoop]
      split at h
      · exact absurd h (by simp)
      · rename_i c' v' hstep
        split at h
        · exact absurd h (by simp)
        · rename_i hcond
          rw [if_neg hcond]
          exact ih h

/-- Short-circuit: a successful scan is insensitive to anything after the
entry at which it stopped. -/
theorem getTarValuesLoop_append {parse : String → Except Unit Chart}
    {events : List TarEvent} {chart : Chart} {values : String}
    {r : Chart × String} (extra : List TarEvent)
    (h : getTarValuesLoop parse events chart values = .ok r) :
    getTarValuesLoop parse (events ++ extra) chart values = .ok r := by
  induction events generalizing chart values with
  | nil => simp [getTarValuesLoop] at h
  | cons ev rest ih =>
    cases ev with
    | readErr => simp [getTarValuesLoop] at h
    | entry nm content =>
      simp only [getTarValuesLoop] at h
      simp only [List.cons_append, getTarValuesLoop]
      split at h
      · exact absurd h (by simp)
      · rename_i c' v' hstep
        split at h
        · rename_i hcond
          rw [if_pos hcond]
          exact h
        · rename_i hcond
          rw [if_neg hcond]
          exact ih h

theorem valuesStep_src {valuesMatch : Bool} {content : Except Unit String}
    {values v' : String} (h : valuesStep valuesMatch content values = .ok v') :
    v' = values ∨ (valuesMatch = true ∧ ∃ data, content = .ok data ∧ v' = data) := by
  unfold valuesStep at h
  split at h
  · rename_i hvm
    split at h
    · exact absurd h (by simp)
    · rename_i data
      injection h with h1
      exact Or.inr ⟨by simpa using hvm, data, rfl, h1.symm⟩
  · injection h with h1
    exact Or.inl h1.symm

/-- Where a scan step's values text comes from: either it is carried over,
or this entry matched the values pattern and the text is its content. -/
theorem scanStep_values_src {parse : String → Except Unit Chart} {nm : String}
    {content : Except Unit String} {chart : Chart} {values : String}
    {c' : Chart} {v' : String}
    (h : scanStep parse nm content chart values = .ok (c', v')) :
    v' = values ∨ (segMatch "/values.yaml".toList nm.toList = true ∧
      ∃ data, content = .ok data ∧ v' = data) := by
  rw [scanStep_eq] at h
  split at h
  · exact absurd h (by simp)
  · split at h
    · exact absurd h (by simp)
    · rename_i v'' hvs
      injection h with h1
      obtain ⟨-, rfl⟩ := Prod.mk.injEq .. |>.mp h1
      exact valuesStep_src hvs

/-- The values text of a successful scan is either the initial one or the
content of some stream entry that matched `*/values.yaml`. -/
theorem getTarValuesLoop_values_src {parse : String → Except Unit Chart}
    {events : List TarEvent} {chart : Chart} {values : String}
    {c : Chart} {v : String}
    (h : getTarValuesLoop parse events chart values = .ok (c, v)) :
    v = values ∨ ∃ nm data, TarEvent.entry nm (.ok data) ∈ events ∧
      segMatch "/values.yaml".toList nm.toList = true ∧ v = data := by
  induction events generalizing chart values with
  | nil => simp [getTarValuesLoop] at h
  | cons ev rest ih =>
    cases ev with
    | readErr => simp [getTarValuesLoop] at h
    | entry nm content =>
      simp only [getTarValuesLoop] at h
      split at h
      · exact absurd h (by simp)
      · rename_i c' v' hstep
        split at h
        · simp only [Except.ok.injEq, Prod.mk.injEq] at h
          obtain ⟨rfl, rfl⟩ := h
          rcases scanStep_values_src hstep with h1 | ⟨hm, data, hc, hveq⟩
          · exact Or.inl h1
          · exact Or.inr ⟨nm, data, by rw [hc]; exact List.mem_cons_self _ _, hm, hveq⟩
        · rcases ih h with h1 | ⟨nm', data, hmem, hm, hveq⟩
          · subst h1
            rcases scanStep_values_src hstep with h2 | ⟨hm, data, hc, hveq⟩
            · exact Or.inl h2
            · exact Or.inr ⟨nm, data, by rw [hc]; exact List.mem_cons_self _ _, hm, hveq⟩
          · exact Or.inr ⟨nm', data, List.mem_cons_of_mem _ hmem, hm, hveq⟩

/-- One loop iteration that does not satisfy the completion check (line
262) continues scanning from the updated captures. -/
theorem getTarValuesLoop_step_continue {parse : String → Except Unit Chart}
    {nm : String} {content : Except Unit String} {rest : List TarEvent}
    {chart : Chart} {values : String} {c' : Chart} {v' : String}
    (hstep : scanStep parse nm content chart values = .ok (c', v'))
    (hcond : (decide (v'.length > 0) && decide (c'.Name.length > 0)) = false) :
    getTarValuesLoop parse (.entry nm content :: rest) chart values =
      getTarValuesLoop parse rest c' v' := by
  simp only [getTarValuesLoop, hstep]
  rw [if_neg (by simp [hcond])]

/-- One loop iteration that satisfies the completion check takes the
`break` (line 263): the loop returns without looking at later entries. -/
theorem getTarValuesLoop_step_stop {parse : String → Except Unit Chart}
    {nm : String} {content : Except Unit String} {rest : List TarEvent}
    {chart : Chart} {values : String} {c' : Chart} {v' : String}
    (hstep : scanStep parse nm content chart values = .ok (c', v'))
    (hcond : (decide (v'.length > 0) && decide (c'.Name.length > 0)) = true) :
    getTarValuesLoop parse (.entry nm content :: rest) chart values = .ok (c', v') := by
  simp only [getTarValuesLoop, hstep]
  rw [if_pos hcond]

/-- A list permutation of a two-element list is that list or its swap. -/
theorem perm_pair {α : Type} {x y : α} {l : List α} (h : l.Perm [x, y]) :
    l = [x, y] ∨ l = [y, x] := by
  have hlen : l.length = 2 := h.length_eq
  obtain ⟨a, b, rfl⟩ : ∃ a b, l = [a, b] := by
    cases l with
    | nil => simp at hlen
    | cons a t =>
      cases t with
      | nil => simp at hlen
      | cons b t2 =>
        cases t2 with
        | nil => exact ⟨a, b, rfl⟩
        | cons c t3 => simp at hlen
  have ha : a = x ∨ a = y := by
    have := h.mem_iff.mp (List.mem_cons_self a [b])
    simpa using this
  rcases ha with h4 | h4
  · left
    rw [h4] at h ⊢
    have h2 : [b].Perm [y] := (List.perm_cons x).mp h
    have h3 : ([b] : List α) = [y] := List.perm_singleton.mp h2
    rw [List.cons.injEq] at h3
    rw [h3.1]
  · right
    rw [h4] at h ⊢
    have hswap : ([x, y] : List α).Perm [y, x] := List.Perm.swap y x []
    have h2 : [b].Perm [x] := (List.perm_cons y).mp (h.trans hswap)
    have h3 : ([b] : List α) = [x] := List.perm_singleton.mp h2
    rw [List.cons.injEq] at h3
    rw [h3.1]

theorem keyLe_dn_ic : keyLe "displayName" "console.openshift.io/iconClass" = false := by
  decide

theorem keyLe_ic_dn : keyLe "console.openshift.io/iconClass" "displayName" = true := by
  decide

/-- The yaml encoder sorts the manifest's two fixed metadata keys into the
same order whichever way the map hands them over. -/
theorem sortByKey_meta (p q : String) :
    sortByKey [("displayName", p), ("console.openshift.io/iconClass", q)] =
      [("console.openshift.io/iconClass", q), ("displayName", p)] ∧
    sortByKey [("console.openshift.io/iconClass", q), ("displayName", p)] =
      [("console.openshift.io/iconClass", q), ("displayName", p)] := by
  constructor <;>
    simp [sortByKey, insertByKey, keyLe_dn_ic, keyLe_ic_dn]

/-- The serialized manifest does not depend on the order in which the Go
runtime iterates the two-key `Metadata` map. -/
theorem writeApbYamlContent_perm {v : TarValues} {mo₁ mo₂ : List (String × String)}
    (h₁ : mo₁.Perm (NewAPB v).Metadata) (h₂ : mo₂.Perm (NewAPB v).Metadata) :
    writeApbYamlContent mo₁ v = writeApbYamlContent mo₂ v := by
  have e₁ := perm_pair h₁
  have e₂ := perm_pair h₂
  have hs : ∀ mo : List (String × String),
      mo = [("displayName", v.Name ++ " (helm bundle)"),
            ("console.openshift.io/iconClass", "icon-" ++ v.Name)] ∨
      mo = [("console.openshift.io/iconClass", "icon-" ++ v.Name),
            ("displayName", v.Name ++ " (helm bundle)")] →
      sortByKey mo = [("console.openshift.io/iconClass", "icon-" ++ v.Name),
            ("displayName", v.Name ++ " (helm bundle)")] := by
    rintro mo (rfl | rfl)
    · exact (sortByKey_meta _ _).1
    · exact (sortByKey_meta _ _).2
  unfold writeApbYamlContent marshalAPB marshalMetadataLines
  rw [hs mo₁ e₁, hs mo₂ e₂]

/-- `getTarValues` never fails with the pattern-match error: the two fixed
patterns are valid, so the `path.Match` error branches (lines 242-248) are
unreachable. -/
theorem getTarValues_ne_matchErr (parse : String → Except Unit Chart)
    (filename : String) (input : ArchiveInput) :
    getTarValues parse filename input ≠ .error .matchErr := by
  cases input with
  | openErr => simp [getTarValues]
  | gzipErr => simp [getTarValues]
  | entries events =>
    simp only [getTarValues]
    split
    · rename_i e heq
      intro hcontra
      injection hcontra with h1
      subst h1
      rcases getTarValuesLoop_error_cases heq with h2 | h2 | h2 | h2 <;>
        exact TarError.noConfusion h2
    · split
      · simp
      · simp

/-! ## A concrete archive used to instantiate the verified properties -/

/-- A concrete Chart.yaml text. -/
def demoChartYaml : String := "description: a demo chart\nname: redis\n"

/-- A concrete parse oracle: it recognises `demoChartYaml` and parses
anything else to the zero `Chart`. -/
def demoParse : String → Except Unit Chart :=
  fun s => if s = demoChartYaml then .ok ⟨"a demo chart", "redis"⟩ else .ok ⟨"", ""⟩

/-- A concrete entry stream holding both required members. -/
def demoEvents : List TarEvent :=
  [.entry "redis/Chart.yaml" (.ok demoChartYaml),
   .entry "redis/values.yaml" (.ok "replicas: 1\n")]

/-- The extraction result on the concrete archive. -/
def demoValues : TarValues := ⟨"redis", "a demo chart", "redis-1.1.12.tgz", "replicas: 1\n"⟩

theorem scanStep_demo1 :
    scanStep demoParse "redis/Chart.yaml" (.ok demoChartYaml) ⟨"", ""⟩ "" =
      .ok (⟨"a demo chart", "redis"⟩, "") := by
  rw [scanStep_eq]
  have h1 : segMatch "/Chart.yaml".toList "redis/Chart.yaml".toList = true := by decide
  have h2 : segMatch "/values.yaml".toList "redis/Chart.yaml".toList = false := by decide
  rw [h1, h2]
  simp [chartStep, valuesStep, demoParse]

theorem scanStep_demo2 :
    scanStep demoParse "redis/values.yaml" (.ok "replicas: 1\n") ⟨"a demo chart", "redis"⟩ "" =
      .ok (⟨"a demo chart", "redis"⟩, "replicas: 1\n") := by
  rw [scanStep_eq]
  have h1 : segMatch "/Chart.yaml".toList "redis/values.yaml".toList = false := by decide
  have h2 : segMatch "/values.yaml".toList "redis/values.yaml".toList = true := by decide
  rw [h1, h2]
  simp [chartStep, valuesStep]

/-- A chart entry whose content parses to an empty `name`. -/
theorem scanStep_demo3 :
    scanStep demoParse "redis/Chart.yaml" (.ok "junk") ⟨"", ""⟩ "" = .ok (⟨"", ""⟩, "") := by
  rw [scanStep_eq]
  have h1 : segMatch "/Chart.yaml".toList "redis/Chart.yaml".toList = true := by decide
  have h2 : segMatch "/values.yaml".toList "redis/Chart.yaml".toList = false := by decide
  rw [h1, h2]
  simp [chartStep, valuesStep, demoParse, demoChartYaml]

theorem getTarValuesLoop_demo :
    getTarValuesLoop demoParse demoEvents ⟨"", ""⟩ "" =
      .ok (⟨"a demo chart", "redis"⟩, "replicas: 1\n") := by
  rw [show demoEvents = TarEvent.entry "redis/Chart.yaml" (Except.ok demoChartYaml) ::
      [TarEvent.entry "redis/values.yaml" (Except.ok "replicas: 1\n")] from rfl]
  rw [getTarValuesLoop_step_continue scanStep_demo1 (by decide)]
  rw [getTarValuesLoop_step_stop scanStep_demo2 (by decide)]

theorem getTarValues_demo :
    getTarValues demoParse "redis-1.1.12.tgz" (.entries demoEvents) = .ok demoValues := by
  simp only [getTarValues, getTarValuesLoop_demo]
  rw [if_pos (by decide)]
  rfl

/-! ## Line structure of the rendered Dockerfile -/

theorem splitLines_newline (l : List Char) : splitLines ('\n' :: l) = [] :: splitLines l := by
  simp [splitLines]

theorem splitLines_ne_nil (l : List Char) : splitLines l ≠ [] := by
  cases l with
  | nil => simp [splitLines]
  | cons c rest =>
    simp only [splitLines]
    split
    · simp
    · split
      · simp
      · simp

/-- Prepending newline-free text extends the first line of the split. -/
theorem splitLines_append {xs : List Char} (h : '\n' ∉ xs) (l : List Char) :
    splitLines (xs ++ l) = (xs ++ (splitLines l).headD []) :: (splitLines l).tail := by
  induction xs with
  | nil =>
    simp only [List.nil_append]
    rcases hsp : splitLines l with _ | ⟨a, t⟩
    · exact absurd hsp (splitLines_ne_nil l)
    · simp
  | cons c rest ih =>
    have hc : c ≠ '\n' := fun hcE => h (hcE ▸ List.mem_cons_self c rest)
    have hr : '\n' ∉ rest := fun hm => h (List.mem_cons_of_mem _ hm)
    simp only [List.cons_append, splitLines, List.append_eq]
    rw [if_neg hc]
    simp only [ih hr]

/-- The text the `COPY` template line renders to around the file name. -/
def dockerfileHead : String :=
  "FROM ansibleplaybookbundle/helm-bundle-base\n\nLABEL \"com.redhat.apb.spec\"=\\\n\"\"\n\nCOPY "

/-- The fixed text after the file name's substitution point. -/
def dockerfileTail : String := " /opt/chart.tgz\n\nENTRYPOINT [\"entrypoint.sh\"]\n"

theorem splitOnceAtMarker_dockerfile :
    splitOnceAtMarker tmplMarker.toList dockerfileTemplate.toList =
      [dockerfileHead.toList, dockerfileTail.toList] := by decide

/-- `writeDockerfile`'s output is the fixed template text with the archive
file name substituted at the single action. -/
theorem renderDockerfile_eq (v : TarValues) :
    renderDockerfile v = dockerfileHead ++ v.TarfileName ++ dockerfileTail := by
  unfold renderDockerfile
  rw [splitOnceAtMarker_dockerfile]
  apply String.ext
  simp [List.intercalate, String.toList]

/-- The line decomposition of the rendered Dockerfile: when the file name
holds no newline, the output has exactly nine lines and the name appears
only on the `COPY` line. -/
theorem splitLines_dockerfile {nm : List Char} (h : '\n' ∉ nm) :
    splitLines (dockerfileHead.toList ++ nm ++ dockerfileTail.toList) =
      ["FROM ansibleplaybookbundle/helm-bundle-base".toList, [],
       "LABEL \"com.redhat.apb.spec\"=\\".toList, "\"\"".toList, [],
       "COPY ".toList ++ nm ++ " /opt/chart.tgz".toList,
       [], "ENTRYPOINT [\"entrypoint.sh\"]".toList, []] := by
  have hA : '\n' ∉ "FROM ansibleplaybookbundle/helm-bundle-base".toList := by decide
  have hB : '\n' ∉ "LABEL \"com.redhat.apb.spec\"=\\".toList := by decide
  have hC : '\n' ∉ "\"\"".toList := by decide
  have hD : '\n' ∉ "COPY ".toList := by decide
  have hE : '\n' ∉ " /opt/chart.tgz".toList := by decide
  have hF : '\n' ∉ "ENTRYPOINT [\"entrypoint.sh\"]".toList := by decide
  have hp : dockerfileHead.toList =
      "FROM ansibleplaybookbundle/helm-bundle-base".toList ++ '\n' :: '\n' ::
      ("LABEL \"com.redhat.apb.spec\"=\\".toList ++ '\n' ::
      ("\"\"".toList ++ '\n' :: '\n' :: "COPY ".toList)) := by decide
  have hs : dockerfileTail.toList =
      " /opt/chart.tgz".toList ++ '\n' :: '\n' ::
      ("ENTRYPOINT [\"entrypoint.sh\"]".toList ++ ['\n']) := by decide
  rw [hp, hs]
  simp only [List.cons_append, List.append_assoc]
  rw [splitLines_append hA, splitLines_newline, splitLines_newline,
    splitLines_append hB, splitLines_newline,
    splitLines_append hC, splitLines_newline, splitLines_newline,
    splitLines_append hD, splitLines_append h,
    splitLines_append hE, splitLines_newline, splitLines_newline,
    splitLines_append hF, splitLines_newline]
  simp [splitLines, List.append_assoc]

/-! ## The verified claims -/

/-- Claim C1, counterexample to the stated error split: an archive whose
stream holds the chart entry (parsed to the non-empty name "redis") but no
values entry ends at EOF, and `getTarValues` reports `ChartNotFound` ("
Chart.yaml not found in archive"), not the distinct `IncompleteArchive`
error the claim requires for that case. -/
theorem claim_C1_counterexample :
    getTarValues demoParse "redis-1.1.12.tgz"
        (.entries [.entry "redis/Chart.yaml" (.ok demoChartYaml)]) =
      .error .chartNotFound ∧
    TarError.chartNotFound ≠ TarError.incompleteArchive := by
  constructor
  · have hloop : getTarValuesLoop demoParse
        [.entry "redis/Chart.yaml" (.ok demoChartYaml)] ⟨"", ""⟩ "" =
        .error .chartNotFound := by
      rw [getTarValuesLoop_step_continue scanStep_demo1 (by decide)]
      rfl
    simp only [getTarValues, hloop]
  · decide

/-- Claim C1 (amended): whenever the scan reaches the end of the entry
stream — whether or not the chart or the values text had been captured —
`getTarValues` fails with the `ChartNotFound` error, and the
`IncompleteArchive` error is unreachable on every input. -/
theorem claim_C1_eof_error :
    (∀ (parse : String → Except Unit Chart) (filename : String) (events : List TarEvent),
        specStreamEndsAtEOF parse events ⟨"", ""⟩ "" = true →
        getTarValues parse filename (.entries events) = .error .chartNotFound) ∧
    (∀ (parse : String → Except Unit Chart) (filename : String) (input : ArchiveInput),
        getTarValues parse filename input ≠ .error .incompleteArchive) := by
  constructor
  · intro parse filename events h
    have hloop := getTarValuesLoop_eof h
    simp only [getTarValues, hloop]
  · intro parse filename input
    exact getTarValues_ne_incompleteArchive parse filename input

/-- Claim C1, witness: the amended theorem evaluated on the empty stream. -/
theorem claim_C1_witness :
    getTarValues demoParse "f.tgz" (.entries []) = .error .chartNotFound ∧
    getTarValues demoParse "f.tgz" (.entries []) ≠ .error .incompleteArchive :=
  ⟨claim_C1_eof_error.1 demoParse "f.tgz" [] rfl,
   claim_C1_eof_error.2 demoParse "f.tgz" (.entries [])⟩

/-- Claim C2: on every successful extraction, `NewAPB` produces a manifest
with version "1.0", bindable false, async "optional", exactly one plan
named "default" that is free with empty metadata, holding exactly one
parameter named "values" titled "Values" of type "string" with the
"textarea" display hint whose default is the values text — and that text
is byte-for-byte the content of a stream entry matching `*/values.yaml`. -/
theorem claim_C2_manifest_fields :
    ∀ (parse : String → Except Unit Chart) (filename : String)
      (events : List TarEvent) (v : TarValues),
      getTarValues parse filename (.entries events) = .ok v →
      (NewAPB v).Version = "1.0" ∧ (NewAPB v).Bindable = false ∧
      (NewAPB v).Async = "optional" ∧
      (NewAPB v).Plans = [⟨"default", "Deploys helm chart " ++ v.Name, true, [],
        [⟨"values", "Values", "string", "textarea", v.Values⟩]⟩] ∧
      ∃ nm data, TarEvent.entry nm (.ok data) ∈ events ∧
        segMatch "/values.yaml".toList nm.toList = true ∧ v.Values = data := by
  intro parse filename events v h
  refine ⟨rfl, rfl, rfl, rfl, ?_⟩
  simp only [getTarValues] at h
  split at h
  · exact absurd h (by simp)
  · rename_i c₀ v₀ heq
    split at h
    · rename_i hcond
      injection h with h1
      subst h1
      rcases getTarValuesLoop_values_src heq with h2 | ⟨nm, data, hmem, hm, h3⟩
      · subst h2
        exact absurd hcond (by simp)
      · exact ⟨nm, data, hmem, hm, h3⟩
    · exact absurd h (by simp)

/-- Claim C2, witness: the manifest fields on the concrete archive. -/
theorem claim_C2_witness :
    (NewAPB demoValues).Version = "1.0" ∧ (NewAPB demoValues).Bindable = false ∧
    (NewAPB demoValues).Async = "optional" ∧
    (NewAPB demoValues).Plans = [⟨"default", "Deploys helm chart " ++ demoValues.Name,
      true, [], [⟨"values", "Values", "string", "textarea", demoValues.Values⟩]⟩] ∧
    ∃ nm data, TarEvent.entry nm (.ok data) ∈ demoEvents ∧
      segMatch "/values.yaml".toList nm.toList = true ∧ demoValues.Values = data :=
  claim_C2_manifest_fields demoParse "redis-1.1.12.tgz" demoEvents demoValues
    getTarValues_demo

/-- Claim C3: the manifest's name is the chart's name with the fixed
"-apb" suffix, its description is the chart's description verbatim, and in
particular the chart name "redis" yields the manifest name "redis-apb". -/
theorem claim_C3_name_description :
    ∀ v : TarValues,
      (NewAPB v).Name = v.Name ++ "-apb" ∧
      (NewAPB v).Description = v.Description ∧
      (NewAPB ⟨"redis", "", "", ""⟩).Name = "redis-apb" :=
  fun _ => ⟨rfl, rfl, rfl⟩

/-- Claim C4: without `--force`, a run in a directory where `apb.yml` or
`Dockerfile` exists aborts with the already-exists condition and changes
nothing; with `--force` the existence check is skipped entirely and, once
extraction succeeds, both output files are written. -/
theorem claim_C4_overwrite_policy :
    ∀ (d : Dir) (parse : String → Except Unit Chart) (filename : String)
      (input : ArchiveInput) (mo : List (String × String)),
      (fileExists d = .ok true →
        runMain false d parse filename input mo = (.error .alreadyExists, d)) ∧
      runMain true d parse filename input mo = runWrites d parse filename input mo ∧
      (∀ v, getTarValues parse filename input = .ok v →
        (runMain true d parse filename input mo).2 =
          ⟨.present (writeApbYamlContent mo v), .present (renderDockerfile v)⟩) := by
  intro d parse filename input mo
  refine ⟨?_, rfl, ?_⟩
  · intro h
    have hm : runMain false d parse filename input mo =
        match fileExists d with
        | .error _ => (.error .statError, d)
        | .ok true => (.error .alreadyExists, d)
        | .ok false => runWrites d parse filename input mo := rfl
    rw [hm, h]
  · intro v hv
    have hm : (runMain true d parse filename input mo).2 =
        (runWrites d parse filename input mo).2 := rfl
    rw [hm]
    unfold runWrites
    rw [hv]

/-- Claim C4, witness: an existing `apb.yml` aborts the unforced run; the
forced run on the concrete archive writes both files. -/
theorem claim_C4_witness :
    runMain false ⟨.present "x", .absent⟩ demoParse "redis-1.1.12.tgz"
        (.entries demoEvents) (NewAPB demoValues).Metadata =
      (.error .alreadyExists, ⟨.present "x", .absent⟩) ∧
    (runMain true emptyDir demoParse "redis-1.1.12.tgz" (.entries demoEvents)
        (NewAPB demoValues).Metadata).2 =
      ⟨.present (writeApbYamlContent (NewAPB demoValues).Metadata demoValues),
       .present (renderDockerfile demoValues)⟩ :=
  ⟨(claim_C4_overwrite_policy ⟨.present "x", .absent⟩ demoParse "redis-1.1.12.tgz"
      (.entries demoEvents) (NewAPB demoValues).Metadata).1 rfl,
   (claim_C4_overwrite_policy emptyDir demoParse "redis-1.1.12.tgz"
      (.entries demoEvents) (NewAPB demoValues).Metadata).2.2 demoValues getTarValues_demo⟩

/-- Claim C5: a successful scan is untouched by whatever entries follow
the one at which it stopped (short-circuit), one iteration stops exactly
when both the values text and the chart name it just computed are
non-empty, and an entry whose chart parse yields an empty name leaves the
loop scanning the remaining entries. -/
theorem claim_C5_short_circuit :
    (∀ (parse : String → Except Unit Chart) (events extra : List TarEvent)
       (chart : Chart) (values : String) (r : Chart × String),
       getTarValuesLoop parse events chart values = .ok r →
       getTarValuesLoop parse (events ++ extra) chart values = .ok r) ∧
    (∀ (parse : String → Except Unit Chart) (nm : String)
       (content : Except Unit String) (rest : List TarEvent)
       (chart c' : Chart) (values v' : String),
       scanStep parse nm content chart values = .ok (c', v') →
       (v'.length > 0 ∧ c'.Name.length > 0 →
          getTarValuesLoop parse (.entry nm content :: rest) chart values =
            .ok (c', v')) ∧
       (c'.Name = "" →
          getTarValuesLoop parse (.entry nm content :: rest) chart values =
            getTarValuesLoop parse rest c' v')) := by
  constructor
  · intro parse events extra chart values r h
    exact getTarValuesLoop_append extra h
  · intro parse nm content rest chart c' values v' hstep
    constructor
    · rintro ⟨h1, h2⟩
      exact getTarValuesLoop_step_stop hstep (by simp [h1, h2])
    · intro hname
      exact getTarValuesLoop_step_continue hstep (by simp [hname])

/-- Claim C5, witness: the concrete scan ignores a trailing read error
after its stopping entry; a chart entry parsing to an empty name keeps the
loop scanning; a completing entry stops it. -/
theorem claim_C5_witness :
    getTarValuesLoop demoParse (demoEvents ++ [TarEvent.readErr]) ⟨"", ""⟩ "" =
      .ok (⟨"a demo chart", "redis"⟩, "replicas: 1\n") ∧
    getTarValuesLoop demoParse
        (TarEvent.entry "redis/Chart.yaml" (.ok "junk") :: [TarEvent.readErr]) ⟨"", ""⟩ "" =
      getTarValuesLoop demoParse [TarEvent.readErr] ⟨"", ""⟩ "" ∧
    getTarValuesLoop demoParse
        (TarEvent.entry "redis/values.yaml" (.ok "replicas: 1\n") :: [TarEvent.readErr])
        ⟨"a demo chart", "redis"⟩ "" =
      .ok (⟨"a demo chart", "redis"⟩, "replicas: 1\n") :=
  ⟨claim_C5_short_circuit.1 demoParse demoEvents [TarEvent.readErr] ⟨"", ""⟩ ""
      (⟨"a demo chart", "redis"⟩, "replicas: 1\n") getTarValuesLoop_demo,
   (claim_C5_short_circuit.2 demoParse "redis/Chart.yaml" (.ok "junk") [TarEvent.readErr]
      ⟨"", ""⟩ ⟨"", ""⟩ "" "" scanStep_demo3).2 rfl,
   (claim_C5_short_circuit.2 demoParse "redis/values.yaml" (.ok "replicas: 1\n")
      [TarEvent.readErr] ⟨"a demo chart", "redis"⟩ ⟨"a demo chart", "redis"⟩ ""
      "replicas: 1\n" scanStep_demo2).1 ⟨by decide, by decide⟩⟩

/-- Claim C6: an entry name matches `*/Chart.yaml` (resp. `*/values.yaml`)
exactly when it is a single slash-free directory segment, a `/`, and the
literal file name; names with no directory part or more than one segment
do not match. -/
theorem claim_C6_glob_one_segment :
    ∀ name : List Char,
      (pathMatch chartPattern name = .ok true ↔
        ∃ pre, '/' ∉ pre ∧ name = pre ++ "/Chart.yaml".toList) ∧
      (pathMatch valuesPattern name = .ok true ↔
        ∃ pre, '/' ∉ pre ∧ name = pre ++ "/values.yaml".toList) := by
  intro name
  constructor
  · rw [pathMatch_chart]
    simp only [Except.ok.injEq]
    exact segMatch_iff _ name
  · rw [pathMatch_values]
    simp only [Except.ok.injEq]
    exact segMatch_iff _ name

/-- Claim C7: rendering the Dockerfile substitutes the archive file name
at the template's single action, so the output is the fixed text around
exactly that name; with a newline-free name the output's lines are the
eight fixed template lines with the name on the `COPY` line alone. -/
theorem claim_C7_dockerfile_render :
    ∀ v : TarValues,
      renderDockerfile v = dockerfileHead ++ v.TarfileName ++ dockerfileTail ∧
      ('\n' ∉ v.TarfileName.toList →
        splitLines (renderDockerfile v).toList =
          ["FROM ansibleplaybookbundle/helm-bundle-base".toList, [],
           "LABEL \"com.redhat.apb.spec\"=\\".toList, "\"\"".toList, [],
           "COPY ".toList ++ v.TarfileName.toList ++ " /opt/chart.tgz".toList,
           [], "ENTRYPOINT [\"entrypoint.sh\"]".toList, []]) := by
  intro v
  refine ⟨renderDockerfile_eq v, fun h => ?_⟩
  rw [renderDockerfile_eq]
  rw [show (dockerfileHead ++ v.TarfileName ++ dockerfileTail).toList =
      dockerfileHead.toList ++ v.TarfileName.toList ++ dockerfileTail.toList from by
    simp [String.toList]]
  exact splitLines_dockerfile h

/-- Claim C7, witness: the round-trip at the archive file name
`redis-1.1.12.tgz`. -/
theorem claim_C7_witness :
    splitLines (renderDockerfile ⟨"redis", "", "redis-1.1.12.tgz", ""⟩).toList =
      ["FROM ansibleplaybookbundle/helm-bundle-base".toList, [],
       "LABEL \"com.redhat.apb.spec\"=\\".toList, "\"\"".toList, [],
       "COPY ".toList ++ "redis-1.1.12.tgz".toList ++ " /opt/chart.tgz".toList,
       [], "ENTRYPOINT [\"entrypoint.sh\"]".toList, []] :=
  (claim_C7_dockerfile_render ⟨"redis", "", "redis-1.1.12.tgz", ""⟩).2 (by decide)

/-- Claim C8: when extraction fails — the archive cannot be opened,
decompression fails, or the scan fails — the run leaves the working
directory exactly as it was: both writes happen only after `getTarValues`
returns successfully. -/
theorem claim_C8_no_writes_on_failure :
    ∀ (force : Bool) (d : Dir) (parse : String → Except Unit Chart)
      (filename : String) (input : ArchiveInput) (mo : List (String × String))
      (e : TarError),
      getTarValues parse filename input = .error e →
      (runMain force d parse filename input mo).2 = d := by
  intro force d parse filename input mo e h
  have hw : (runWrites d parse filename input mo).2 = d := by
    unfold runWrites
    rw [h]
  unfold runMain
  split
  · split
    · rfl
    · rfl
    · exact hw
  · exact hw

/-- Claim C8, witness: a run on an unopenable archive leaves the empty
directory empty. -/
theorem claim_C8_witness :
    (runMain false emptyDir demoParse "f.tgz" .openErr []).2 = emptyDir :=
  claim_C8_no_writes_on_failure false emptyDir demoParse "f.tgz" .openErr [] .openErr rfl

/-- Claim C9: for one successfully extracted input, a first run in an
empty directory and a forced second run — each seeing the two-key metadata
map in an arbitrary iteration order — leave identical directory contents,
and those contents are the serialized manifest and rendered Dockerfile of
the extracted values: the output is deterministic byte for byte. -/
theorem claim_C9_deterministic :
    ∀ (parse : String → Except Unit Chart) (filename : String) (input : ArchiveInput)
      (mo₁ mo₂ : List (String × String)) (v : TarValues),
      getTarValues parse filename input = .ok v →
      mo₁.Perm (NewAPB v).Metadata → mo₂.Perm (NewAPB v).Metadata →
      (runMain false emptyDir parse filename input mo₁).2 =
        (runMain true (runMain false emptyDir parse filename input mo₁).2
          parse filename input mo₂).2 ∧
      (runMain false emptyDir parse filename input mo₁).2 =
        ⟨.present (writeApbYamlContent mo₁ v), .present (renderDockerfile v)⟩ := by
  intro parse filename input mo₁ mo₂ v hget h₁ h₂
  have hcontent := writeApbYamlContent_perm h₁ h₂
  have hrw : ∀ (d : Dir) (mo : List (String × String)),
      (runWrites d parse filename input mo).2 =
        ⟨.present (writeApbYamlContent mo v), .present (renderDockerfile v)⟩ := by
    intro d mo
    unfold runWrites
    rw [hget]
  have hfirst : (runMain false emptyDir parse filename input mo₁).2 =
      ⟨.present (writeApbYamlContent mo₁ v), .present (renderDockerfile v)⟩ := by
    have hm : runMain false emptyDir parse filename input mo₁ =
        runWrites emptyDir parse filename input mo₁ := rfl
    rw [hm, hrw]
  refine ⟨?_, hfirst⟩
  have hsecond : ∀ d : Dir, (runMain true d parse filename input mo₂).2 =
      ⟨.present (writeApbYamlContent mo₂ v), .present (renderDockerfile v)⟩ := by
    intro d
    have hm : runMain true d parse filename input mo₂ =
        runWrites d parse filename input mo₂ := rfl
    rw [hm, hrw]
  rw [hfirst, hsecond, hcontent]

/-- Claim C9, witness: the two runs on the concrete archive, the map's
entries handed to the encoder in the two opposite orders. -/
theorem claim_C9_witness :
    (runMain false emptyDir demoParse "redis-1.1.12.tgz" (.entries demoEvents)
        [("displayName", "redis (helm bundle)"),
         ("console.openshift.io/iconClass", "icon-redis")]).2 =
      (runMain true (runMain false emptyDir demoParse "redis-1.1.12.tgz"
          (.entries demoEvents)
          [("displayName", "redis (helm bundle)"),
           ("console.openshift.io/iconClass", "icon-redis")]).2
        demoParse "redis-1.1.12.tgz" (.entries demoEvents)
        [("console.openshift.io/iconClass", "icon-redis"),
         ("displayName", "redis (helm bundle)")]).2 ∧
    (runMain false emptyDir demoParse "redis-1.1.12.tgz" (.entries demoEvents)
        [("displayName", "redis (helm bundle)"),
         ("console.openshift.io/iconClass", "icon-redis")]).2 =
      ⟨.present (writeApbYamlContent
          [("displayName", "redis (helm bundle)"),
           ("console.openshift.io/iconClass", "icon-redis")] demoValues),
       .present (renderDockerfile demoValues)⟩ :=
  claim_C9_deterministic demoParse "redis-1.1.12.tgz" (.entries demoEvents)
    [("displayName", "redis (helm bundle)"), ("console.openshift.io/iconClass", "icon-redis")]
    [("console.openshift.io/iconClass", "icon-redis"), ("displayName", "redis (helm bundle)")]
    demoValues getTarValues_demo (by decide) (by decide)

/-- Claim C10: `path.Match` on the two fixed patterns returns a boolean
for every entry name — its error branches are unreachable — and
consequently `getTarValues` never fails with the match error. -/
theorem claim_C10_match_never_errors :
    ∀ name : List Char,
      pathMatch chartPattern name = .ok (segMatch "/Chart.yaml".toList name) ∧
      pathMatch valuesPattern name = .ok (segMatch "/values.yaml".toList name) ∧
      ∀ (parse : String → Except Unit Chart) (filename : String) (input : ArchiveInput),
        getTarValues parse filename input ≠ .error .matchErr :=
  fun name => ⟨pathMatch_chart name, pathMatch_values name,
    fun parse filename input => getTarValues_ne_matchErr parse filename input⟩

end Helm2Bundle
